import Mathlib

/-!
Shallow embedding of `src/streamlit_phone_extractor_with_ready_msg.py`:
phone-number discovery and normalization, WhatsApp deep-link building with
percent-encoding, order-summary phrase construction, Arabic message assembly,
and the row pipeline with first-seen deduplication.

Cells of the tabular input are modelled as `Option String` (`none` is a
missing cell, pandas `NaN`).  The digit class `\d` of the pattern and the
whitespace set of Python's `str.strip` are modelled over ASCII, which covers
every digit or whitespace character the program's branches inspect.
-/

namespace Wa

/-- Models Python's `\d` character class (ASCII decimal digits). -/
def isDig (c : Char) : Bool := c.isDigit

/-- Models Python's `str.strip()`: drop leading and trailing whitespace. -/
def pyStrip (s : String) : String :=
  (((s.data.dropWhile Char.isWhitespace).reverse.dropWhile Char.isWhitespace).reverse).asString

/-! ### The mobile pattern `(?:\+?20)?0?1\d{9}` (EG_MOBILE_REGEX)

`re.search` tries start positions left to right; at a position the optional
groups are tried greedily (present before absent), backtracking in order:
`+20 0`, `+20`, `20 0`, `20`, `0`, nothing, each followed by `1\d{9}`.
-/

/-- Mandatory tail of the pattern: `1\d{9}`. -/
def egMatchCore : List Char → Option (List Char)
  | '1' :: rest =>
    if (rest.take 9).length = 9 ∧ (rest.take 9).all isDig then
      some ('1' :: rest.take 9)
    else none
  | _ => none

/-- The `0?1\d{9}` part: a present optional `0` is preferred. -/
def egMatchOpt0 (cs : List Char) : Option (List Char) :=
  match cs with
  | '0' :: rest =>
    match egMatchCore rest with
    | some m => some ('0' :: m)
    | none => egMatchCore cs
  | _ => egMatchCore cs

/-- Attempt of the whole pattern anchored at the start of `cs`, with the
greedy preference order of `(?:\+?20)?`. -/
def egMatchAt (cs : List Char) : Option (List Char) :=
  match cs with
  | '+' :: '2' :: '0' :: rest =>
    match egMatchOpt0 rest with
    | some m => some ('+' :: '2' :: '0' :: m)
    | none => egMatchOpt0 cs
  | '2' :: '0' :: rest =>
    match egMatchOpt0 rest with
    | some m => some ('2' :: '0' :: m)
    | none => egMatchOpt0 cs
  | _ => egMatchOpt0 cs

/-- Models `EG_MOBILE_REGEX.search`: leftmost successful anchor wins. -/
def egSearch : List Char → Option (List Char)
  | [] => none
  | c :: rest =>
    match egMatchAt (c :: rest) with
    | some m => some m
    | none => egSearch rest

/-! ### normalize_eg_phone -/

/-- The three normalization branches of `normalize_eg_phone` (in source
precedence), acting on the digits of the matched substring.  `startswith`
tests are expressed with `List.take`. -/
def normBranch (l : List Char) : Option (List Char) :=
  if l.take 1 = ['0'] ∧ l.length = 11 then some ('2' :: '0' :: l.drop 1)
  else if l.take 2 = ['2', '0'] ∧ l.length = 12 then some l
  else if l.take 1 = ['1'] ∧ l.length = 10 then some ('2' :: '0' :: l)
  else none

/-- Branch normalization followed by the final acceptance gate
(`startswith("201") and len == 12`). -/
def normDigits (l : List Char) : Option (List Char) :=
  match normBranch l with
  | none => none
  | some ds => if ds.take 3 = ['2', '0', '1'] ∧ ds.length = 12 then some ds else none

/-- `normalize_eg_phone`: search the pattern, strip non-digits from the
match (`re.sub(r"\D", "", ...)`), normalize, gate. -/
def normalize_eg_phone (t : String) : Option String :=
  match egSearch t.data with
  | none => none
  | some m => (normDigits (m.filter isDig)).map List.asString

/-! ### Link building -/

/-- UTF-8 bytes of a character (Python strings are percent-encoded through
their UTF-8 encoding). -/
def utf8Bytes (c : Char) : List Nat :=
  let n := c.toNat
  if n < 128 then [n]
  else if n < 2048 then [192 + n / 64, 128 + n % 64]
  else if n < 65536 then [224 + n / 4096, 128 + (n / 64) % 64, 128 + n % 64]
  else [240 + n / 262144, 128 + (n / 4096) % 64, 128 + (n / 64) % 64, 128 + n % 64]

/-- The bytes `urllib.parse.quote` never escapes even with `safe=""`:
ASCII letters, digits, and `_`, `.`, `-`, `~`. -/
def isUnreservedByte (b : Nat) : Bool :=
  (65 ≤ b && b ≤ 90) || (97 ≤ b && b ≤ 122) || (48 ≤ b && b ≤ 57) ||
    b == 45 || b == 46 || b == 95 || b == 126

/-- Uppercase hex digit of a value below 16. -/
def hexDigit (n : Nat) : Char := if n < 10 then Char.ofNat (48 + n) else Char.ofNat (55 + n)

/-- One byte of `quote(text, safe="")` output: kept verbatim when
unreserved, otherwise `%XX`. -/
def encodeByte (b : Nat) : List Char :=
  if isUnreservedByte b then [Char.ofNat b] else ['%', hexDigit (b / 16), hexDigit (b % 16)]

/-- `encode_for_whatsapp`: `quote(text, safe="")`. -/
def encode_for_whatsapp (s : String) : String :=
  ((s.data.flatMap utf8Bytes).flatMap encodeByte).asString

/-- `build_wa_link`: base `https://wa.me/<phone>`, plus `?text=` with the
encoded message when the message is truthy and has non-blank content
(`message and message.strip()`). -/
def build_wa_link (phone msg : String) : String :=
  if msg ≠ "" ∧ pyStrip msg ≠ "" then
    "https://wa.me/" ++ phone ++ "?text=" ++ encode_for_whatsapp msg
  else "https://wa.me/" ++ phone

/-! ### Percent decoding (standard reading of the `?text=` value, used to
state the round-trip property; not part of the source). -/

/-- Value of a hex digit character (upper- or lower-case). -/
def hexVal (c : Char) : Nat :=
  if c.toNat ≤ 57 then c.toNat - 48 else if c.toNat ≤ 70 then c.toNat - 55 else c.toNat - 87

/-- Byte stream denoted by a percent-encoded string: `%XX` triples become
single bytes, any other character contributes its UTF-8 bytes. -/
def percentDecodeBytes : List Char → List Nat
  | [] => []
  | '%' :: h1 :: h2 :: rest => (16 * hexVal h1 + hexVal h2) :: percentDecodeBytes rest
  | c :: rest => utf8Bytes c ++ percentDecodeBytes rest

/-- A UTF-8 continuation byte. -/
def contOk (b : Nat) : Bool := 128 ≤ b && b < 192

/-- UTF-8 decoding of a byte stream: a lead byte determines how many
continuation bytes to fold into the scalar value. -/
def utf8Decode : List Nat → Option (List Char)
  | [] => some []
  | b :: rest =>
    if b < 128 then (utf8Decode rest).map (fun l => Char.ofNat b :: l)
    else if b < 192 then none
    else if b < 224 then
      if 1 ≤ rest.length ∧ (rest.take 1).all contOk then
        (utf8Decode (rest.drop 1)).map
          (fun l =>
            Char.ofNat ((rest.take 1).foldl (fun acc x => acc * 64 + (x - 128)) (b - 192)) :: l)
      else none
    else if b < 240 then
      if 2 ≤ rest.length ∧ (rest.take 2).all contOk then
        (utf8Decode (rest.drop 2)).map
          (fun l =>
            Char.ofNat ((rest.take 2).foldl (fun acc x => acc * 64 + (x - 128)) (b - 224)) :: l)
      else none
    else if b < 248 then
      if 3 ≤ rest.length ∧ (rest.take 3).all contOk then
        (utf8Decode (rest.drop 3)).map
          (fun l =>
            Char.ofNat ((rest.take 3).foldl (fun acc x => acc * 64 + (x - 128)) (b - 240)) :: l)
      else none
    else none
termination_by l => l.length
decreasing_by all_goals (simp [List.length_drop]; try omega)

/-- Percent-decode a string: bytes, then UTF-8. -/
def percentDecode (s : String) : Option String :=
  (utf8Decode (percentDecodeBytes s.data)).map List.asString

/-! ### Quantity phrase (build_quantity_phrase)

Column layout constants of the source: `NOTES_COL_IDX = 0`,
`TOTAL_COL_IDX = 3`, `ITEMS_START_IDX = 4`, `ITEMS_END_IDX_INC = 11`.
A row is a `List (Option String)`; `none` is a pandas `NaN` cell.
-/

/-- Guarded cell access `row.iat[idx] if idx < len(row) else None`,
where a present-but-`NaN` cell also reads as `none` (`pd.isna`). -/
def cellAt (row : List (Option String)) (idx : Nat) : Option String :=
  match row.get? idx with
  | some c => c
  | none => none

/-- `headers[idx] if idx < len(headers) else f"صنف {idx+1}"`. -/
def itemLabel (hs : List String) (idx : Nat) : String :=
  match hs.get? idx with
  | some h => h
  | none => "صنف " ++ toString (idx + 1)

/-- Contribution of one item column to the phrase: skipped when the cell is
missing, blank after stripping, or textually `"0"`/`"0.0"`; otherwise the
fragment `label ++ ": " ++ stripped value`. -/
def itemFrag (hs : List String) (row : List (Option String)) (idx : Nat) : Option String :=
  match cellAt row idx with
  | none => none
  | some v =>
    let sval := pyStrip v
    if sval = "" then none
    else if sval = "0" ∨ sval = "0.0" then none
    else some (itemLabel hs idx ++ ": " ++ sval)

/-- The item indices iterated by the builder:
`range(ITEMS_START_IDX, min(ITEMS_END_IDX_INC, len(row) - 1) + 1)`. -/
def itemIndices (row : List (Option String)) : List Nat :=
  List.range' 4 (min 11 (row.length - 1) + 1 - 4)

/-- The notes fragment (column 0): the stripped text when present and
non-blank. -/
def notesFrag (row : List (Option String)) : List String :=
  match cellAt row 0 with
  | some s => if pyStrip s = "" then [] else [pyStrip s]
  | none => []

/-- `"، ".join(parts)` (full-width comma + space). -/
def joinParts : List String → String
  | [] => ""
  | [p] => p
  | p :: rest => p ++ "، " ++ joinParts rest

/-- `build_quantity_phrase`: notes fragment followed by the item fragments
of columns 4..11 (clamped to the row length), joined with `"، "`. -/
def build_quantity_phrase (row : List (Option String)) (hs : List String) : String :=
  joinParts (notesFrag row ++ (itemIndices row).filterMap (itemFrag hs row))

/-! ### Message, records and the row pipeline -/

/-- `AR_TEMPLATE_FIXED.format(quantity=..., total=...)`: the fixed Arabic
template with its two substitution points. -/
def composeMessage (quantity total : String) : String :=
  "السلام عليكم ورحمة الله باكلم حضرتك بخصوص اوردر زبده المصريين. " ++
    "اوردر حضرتك متاح للتوصيل غدا ان شاء الله من 4الى8م لو مناسب لحضرتك استاذنك اللوكيشن " ++
    "اوردر حضرتك : " ++ quantity ++ " الاجمالي " ++ total ++ " ,,,"

/-- Total text of a row: stripped column 3, empty when missing or `NaN`. -/
def totalStrOf (row : List (Option String)) : String :=
  match cellAt row 3 with
  | some s => pyStrip s
  | none => ""

/-- One output row: phone display (leading `+`), preview message, WhatsApp
link, and the `done` flag initialised to `False`. -/
structure OrderRecord where
  phone : String
  message : String
  link : String
  done : Bool
deriving DecidableEq

/-- `extract_first_phone_from_row`: first cell whose text normalizes. -/
def extract_first_phone_from_row (row : List (Option String)) : Option String :=
  row.findSome? fun c =>
    match c with
    | some s => normalize_eg_phone s
    | none => none

/-- The record built for a row whose phone normalized to `d`: the message
`msg` is composed once and used both as the preview and inside the link. -/
def mkRecord (hs : List String) (row : List (Option String)) (d : String) : OrderRecord where
  phone := "+" ++ d
  message := composeMessage (build_quantity_phrase row hs) (totalStrOf row)
  link := build_wa_link d (composeMessage (build_quantity_phrase row hs) (totalStrOf row))
  done := false

/-- The per-row loop of the script: skip rows without a phone, skip rows
whose phone display is already in `seen_phones`, else emit the record and
remember the phone. -/
def processRows (hs : List String) :
    List (List (Option String)) → List String → List OrderRecord
  | [], _ => []
  | row :: rest, seen =>
    match extract_first_phone_from_row row with
    | none => processRows hs rest seen
    | some d =>
      if seen.contains ("+" ++ d) then processRows hs rest seen
      else mkRecord hs row d :: processRows hs rest (("+" ++ d) :: seen)

/-- The whole pipeline: every data row, starting from an empty
deduplication set. -/
def orderPipeline (hs : List String) (rows : List (List (Option String))) : List OrderRecord :=
  processRows hs rows []

/-- The record a row would contribute with deduplication ignored. -/
def rowRecord (hs : List String) (row : List (Option String)) : Option OrderRecord :=
  (extract_first_phone_from_row row).map (mkRecord hs row)

/-- First-occurrence deduplication by the phone key, as the spec words it. -/
def firstSeenDedup : List OrderRecord → List String → List OrderRecord
  | [], _ => []
  | r :: rest, seen =>
    if seen.contains r.phone then firstSeenDedup rest seen
    else r :: firstSeenDedup rest (r.phone :: seen)

/-- The canonical shape of a normalized phone: 12 digits starting `201`. -/
def phoneShape (r : String) : Prop :=
  r.data.take 3 = ['2', '0', '1'] ∧ r.data.length = 12 ∧ r.data.all isDig = true

end Wa


namespace Wa

/-! ## Lemmas about normalization -/

lemma mkRecord_phone (hs : List String) (row : List (Option String)) (d : String) :
    (mkRecord hs row d).phone = "+" ++ d := by
  simp only [mkRecord]

lemma mkRecord_message (hs : List String) (row : List (Option String)) (d : String) :
    (mkRecord hs row d).message =
      composeMessage (build_quantity_phrase row hs) (totalStrOf row) := by
  simp only [mkRecord]

lemma mkRecord_link (hs : List String) (row : List (Option String)) (d : String) :
    (mkRecord hs row d).link =
      build_wa_link d (composeMessage (build_quantity_phrase row hs) (totalStrOf row)) := by
  simp only [mkRecord]

lemma mkRecord_done (hs : List String) (row : List (Option String)) (d : String) :
    (mkRecord hs row d).done = false := by
  simp only [mkRecord]

lemma all_isDig_drop {l : List Char} (n : Nat) (h : l.all isDig = true) :
    (l.drop n).all isDig = true := by
  simp only [List.all_eq_true] at h ⊢
  exact fun x hx => h x (List.mem_of_mem_drop hx)

lemma all_isDig_filter (l : List Char) : (l.filter isDig).all isDig = true := by
  simp only [List.all_eq_true, List.mem_filter]
  exact fun x hx => hx.2

lemma normBranch_all {l ds : List Char} (h : normBranch l = some ds)
    (hall : l.all isDig = true) : ds.all isDig = true := by
  unfold normBranch at h
  split_ifs at h with h1 h2 h3
  · cases h
    simp only [List.all_cons, Bool.and_eq_true]
    exact ⟨by decide, by decide, all_isDig_drop 1 hall⟩
  · cases h; exact hall
  · cases h
    simp only [List.all_cons, Bool.and_eq_true]
    exact ⟨by decide, by decide, hall⟩

lemma normDigits_some {l ds : List Char} (h : normDigits l = some ds) :
    ds.take 3 = ['2', '0', '1'] ∧ ds.length = 12 ∧
      (l.all isDig = true → ds.all isDig = true) := by
  unfold normDigits at h
  cases hb : normBranch l with
  | none => rw [hb] at h; cases h
  | some ds0 =>
    rw [hb] at h
    simp only at h
    split_ifs at h with hg
    · cases h
      exact ⟨hg.1, hg.2, fun hall => normBranch_all hb hall⟩

lemma normalize_shape {t : String} {r : String} (h : normalize_eg_phone t = some r) :
    phoneShape r := by
  unfold normalize_eg_phone at h
  cases hs : egSearch t.data with
  | none => rw [hs] at h; cases h
  | some m =>
    rw [hs] at h
    simp only at h
    cases hn : normDigits (m.filter isDig) with
    | none => rw [hn] at h; cases h
    | some ds =>
      rw [hn] at h
      cases h
      obtain ⟨h1, h2, h3⟩ := normDigits_some hn
      exact ⟨h1, h2, h3 (all_isDig_filter m)⟩

lemma extract_some {row : List (Option String)} {d : String}
    (h : extract_first_phone_from_row row = some d) :
    ∃ s : String, normalize_eg_phone s = some d := by
  induction row with
  | nil => cases h
  | cons c rest ih =>
    rw [extract_first_phone_from_row, List.findSome?_cons] at h
    cases c with
    | none => exact ih h
    | some s =>
      simp only at h
      cases hn : normalize_eg_phone s with
      | none => rw [hn] at h; exact ih h
      | some d0 => rw [hn] at h; cases h; exact ⟨s, hn⟩

lemma mem_processRows {hs : List String} {rec : OrderRecord} :
    ∀ {rows : List (List (Option String))} {seen : List String},
      rec ∈ processRows hs rows seen →
      ∃ row d, extract_first_phone_from_row row = some d ∧ rec = mkRecord hs row d := by
  intro rows
  induction rows with
  | nil => intro seen h; cases h
  | cons row rest ih =>
    intro seen h
    rw [processRows] at h
    cases hx : extract_first_phone_from_row row with
    | none => rw [hx] at h; exact ih h
    | some d =>
      rw [hx] at h
      simp only at h
      split_ifs at h with hc
      · exact ih h
      · rcases List.mem_cons.mp h with h | h
        · exact ⟨row, d, hx, h⟩
        · exact ih h

/-- C1: whenever `normalize_eg_phone` returns a result, it is a string of
exactly 12 digits beginning `201`; and every record the pipeline emits
carries such a phone: its displayed phone is `+` before it and its link is
built from it and the record's own message. -/
theorem normalized_phone_shape :
    (∀ t r : String, normalize_eg_phone t = some r → phoneShape r) ∧
    (∀ (hs : List String) (rows : List (List (Option String))) (rec : OrderRecord),
      rec ∈ orderPipeline hs rows →
      ∃ d : String, phoneShape d ∧ rec.phone = "+" ++ d ∧
        rec.link = build_wa_link d rec.message) := by
  constructor
  · exact fun t r h => normalize_shape h
  · intro hs rows rec hmem
    obtain ⟨row, d, hx, rfl⟩ := mem_processRows hmem
    obtain ⟨s, hn⟩ := extract_some hx
    exact ⟨d, normalize_shape hn, mkRecord_phone hs row d,
      by rw [mkRecord_link, mkRecord_message]⟩

/-- Witness for C1 at a concrete input. -/
theorem normalized_phone_shape_witness : phoneShape "201012345678" :=
  normalized_phone_shape.1 "01012345678" "201012345678" (by decide)

set_option maxHeartbeats 1000000 in
/-- C10: the leftmost greedy match of `EG_MOBILE_REGEX` on
`"2001012345678"` consumes all 13 digits (`20` + `0` + the 10-digit core),
no normalization branch accepts 13 digits, so the cell yields no phone —
even though the cell contains the valid 11-digit national number
`"01012345678"`, which on its own normalizes to `"201012345678"`. -/
theorem greedy_match_loses_valid_number :
    egSearch "2001012345678".data = some "2001012345678".data ∧
    normalize_eg_phone "2001012345678" = none ∧
    ("2001012345678" : String) = "20" ++ "01012345678" ∧
    normalize_eg_phone "01012345678" = some "201012345678" := by
  refine ⟨by decide, by decide, by decide, by decide⟩

/-! ## Deduplication (C2) -/

lemma processRows_eq_dedup (hs : List String) :
    ∀ (rows : List (List (Option String))) (seen : List String),
      processRows hs rows seen = firstSeenDedup (rows.filterMap (rowRecord hs)) seen := by
  intro rows
  induction rows with
  | nil => intro seen; rfl
  | cons row rest ih =>
    intro seen
    rw [processRows, List.filterMap_cons]
    cases hx : extract_first_phone_from_row row with
    | none =>
      have : rowRecord hs row = none := by rw [rowRecord, hx]; rfl
      rw [this]
      simp only
      exact ih seen
    | some d =>
      have : rowRecord hs row = some (mkRecord hs row d) := by rw [rowRecord, hx]; rfl
      rw [this]
      simp only [firstSeenDedup, mkRecord_phone]
      split_ifs with hc
      · exact ih seen
      · rw [ih (("+" ++ d) :: seen)]

lemma processRows_phone_notin_seen (hs : List String) :
    ∀ (rows : List (List (Option String))) (seen : List String) (rec : OrderRecord),
      rec ∈ processRows hs rows seen → rec.phone ∉ seen := by
  intro rows
  induction rows with
  | nil => intro seen rec h; cases h
  | cons row rest ih =>
    intro seen rec h
    rw [processRows] at h
    cases hx : extract_first_phone_from_row row with
    | none => rw [hx] at h; exact ih seen rec h
    | some d =>
      rw [hx] at h
      simp only at h
      split_ifs at h with hc
      · exact ih seen rec h
      · rcases List.mem_cons.mp h with h | h
        · intro hmem
          rw [h, mkRecord_phone] at hmem
          exact hc (List.elem_eq_true_of_mem hmem)
        · have := ih _ rec h
          intro hmem
          exact this (List.mem_cons_of_mem _ hmem)

lemma processRows_phones_nodup (hs : List String) :
    ∀ (rows : List (List (Option String))) (seen : List String),
      ((processRows hs rows seen).map (fun r => r.phone)).Nodup := by
  intro rows
  induction rows with
  | nil => intro seen; simp [processRows]
  | cons row rest ih =>
    intro seen
    rw [processRows]
    cases hx : extract_first_phone_from_row row with
    | none => exact ih seen
    | some d =>
      simp only
      split_ifs with hc
      · exact ih seen
      · rw [List.map_cons, List.nodup_cons]
        refine ⟨?_, ih _⟩
        intro hmem
        obtain ⟨rec, hrec, hph⟩ := List.mem_map.mp hmem
        have := processRows_phone_notin_seen hs rest _ rec hrec
        rw [hph, mkRecord_phone] at this
        exact this (List.mem_cons_self _ _)

/-- C2: the pipeline output is exactly the first-seen deduplication (by
normalized phone) of the records the rows would individually contribute, in
source order; no phone appears twice in the output; and every emitted
record has `done = false`. -/
theorem pipeline_dedup (hs : List String) (rows : List (List (Option String))) :
    orderPipeline hs rows = firstSeenDedup (rows.filterMap (rowRecord hs)) [] ∧
    ((orderPipeline hs rows).map (fun r => r.phone)).Nodup ∧
    ∀ rec ∈ orderPipeline hs rows, rec.done = false := by
  refine ⟨processRows_eq_dedup hs rows [], processRows_phones_nodup hs rows [], ?_⟩
  intro rec hmem
  obtain ⟨row, d, hx, rfl⟩ := mem_processRows hmem
  exact mkRecord_done hs row d

/-- Witness for C2: the duplicate second row is dropped and the single
emitted record has `done = false`. -/
theorem pipeline_dedup_witness :
    (mkRecord [] [some "01012345678"] "201012345678").done = false :=
  (pipeline_dedup [] [[some "01012345678"], [some "+2 01012345678"]]).2.2
    (mkRecord [] [some "01012345678"] "201012345678") (List.mem_singleton_self _)

/-! ## Quantity phrase properties (C6, C7) -/

/-- C6: an item cell (columns 4..11) whose stripped text is `"0"` or
`"0.0"` contributes no fragment to the summary phrase; any other non-blank
stripped value contributes the fragment `label ++ ": " ++ value`.
(`itemFrag` is exactly the per-column contribution `build_quantity_phrase`
filter-maps over the item indices.) -/
theorem zero_suppression (hs : List String) (row : List (Option String)) (idx : Nat)
    (s : String) (h4 : 4 ≤ idx) (h11 : idx ≤ 11) (hc : cellAt row idx = some s) :
    ((pyStrip s = "0" ∨ pyStrip s = "0.0") → itemFrag hs row idx = none) ∧
    (pyStrip s ≠ "" → pyStrip s ≠ "0" → pyStrip s ≠ "0.0" →
      itemFrag hs row idx = some (itemLabel hs idx ++ ": " ++ pyStrip s)) := by
  constructor
  · rintro (h0 | h0) <;> simp [itemFrag, hc, h0]
  · intro h1 h2 h3
    simp [itemFrag, hc, h1, h2, h3]

/-- Witness for C6: a stripped `" 0 "` item cell is suppressed. -/
theorem zero_suppression_witness :
    itemFrag ["a", "b", "c", "d", "e"] [none, none, none, none, some " 0 "] 4 = none :=
  (zero_suppression ["a", "b", "c", "d", "e"] [none, none, none, none, some " 0 "] 4 " 0 "
    (by decide) (by decide) (by decide)).1 (Or.inl (by decide))

/-- C7: the builder iterates item indices from 4 up to
`min 11 (row.length - 1)` only, every iterated index is a safe in-bounds
access, and a short row yields `min 8 (row.length - 4)` item iterations —
fewer fragments, never an out-of-range access. -/
theorem item_range_clamped (row : List (Option String)) :
    (∀ idx ∈ itemIndices row,
      4 ≤ idx ∧ idx ≤ 11 ∧ idx < row.length ∧ (row.get? idx).isSome = true) ∧
    (itemIndices row).length = min 8 (row.length - 4) := by
  constructor
  · intro idx hmem
    rw [itemIndices, List.mem_range'_1] at hmem
    have hlt : idx < row.length := by omega
    refine ⟨by omega, by omega, hlt, ?_⟩
    rw [List.get?_eq_get hlt]
    rfl
  · rw [itemIndices, List.length_range']
    omega

/-- Witness for C7 on a 6-column row. -/
theorem item_range_clamped_witness :
    4 ≤ 4 ∧ 4 ≤ 11 ∧
      4 < ([none, none, none, none, some "1", some "2"] : List (Option String)).length ∧
      (([none, none, none, none, some "1", some "2"] : List (Option String)).get? 4).isSome
        = true :=
  (item_range_clamped [none, none, none, none, some "1", some "2"]).1 4 (by decide)

/-! ## Link format (C9) -/

lemma build_wa_link_text (phone msg : String) (h : pyStrip msg ≠ "") :
    build_wa_link phone msg
      = "https://wa.me/" ++ phone ++ "?text=" ++ encode_for_whatsapp msg := by
  rw [build_wa_link, if_pos]
  exact ⟨fun he => h (by rw [he]; rfl), h⟩

/-- C9: with a message whose stripped text is non-empty the link is the
base `https://wa.me/<phone>` followed by `?text=` and the encoded message;
with a blank (empty or whitespace-only) message it is the bare base. -/
theorem link_format (phone msg : String) :
    (pyStrip msg ≠ "" →
      build_wa_link phone msg
        = "https://wa.me/" ++ phone ++ "?text=" ++ encode_for_whatsapp msg) ∧
    (pyStrip msg = "" → build_wa_link phone msg = "https://wa.me/" ++ phone) := by
  constructor
  · exact build_wa_link_text phone msg
  · intro h
    rw [build_wa_link, if_neg]
    intro hcon
    exact hcon.2 h

/-- Witness for C9: one non-blank and one whitespace-only message. -/
theorem link_format_witness :
    build_wa_link "201012345678" "hi"
      = "https://wa.me/" ++ "201012345678" ++ "?text=" ++ encode_for_whatsapp "hi" ∧
    build_wa_link "201012345678" " " = "https://wa.me/" ++ "201012345678" :=
  ⟨(link_format "201012345678" "hi").1 (by decide),
    (link_format "201012345678" " ").2 (by decide)⟩

/-! ## Idempotence (C8) -/

lemma egMatchCore_201 {t : List Char} (h9 : t.length = 9) (hd : t.all isDig = true) :
    egMatchCore ('1' :: t) = some ('1' :: t) := by
  have htake : t.take 9 = t := by rw [← h9, List.take_length]
  rw [egMatchCore, htake, if_pos ⟨h9, hd⟩]

lemma egMatchAt_201 {t : List Char} (h9 : t.length = 9) (hd : t.all isDig = true) :
    egMatchAt ('2' :: '0' :: '1' :: t) = some ('2' :: '0' :: '1' :: t) := by
  have hopt : egMatchOpt0 ('1' :: t) = some ('1' :: t) := by
    rw [show egMatchOpt0 ('1' :: t) = egMatchCore ('1' :: t) from rfl]
    exact egMatchCore_201 h9 hd
  rw [show egMatchAt ('2' :: '0' :: '1' :: t)
        = (match egMatchOpt0 ('1' :: t) with
            | some m => some ('2' :: '0' :: m)
            | none => egMatchOpt0 ('2' :: '0' :: '1' :: t)) from rfl,
    hopt]

/-- C8: normalization is idempotent on canonical values: every 12-digit
string `201…` re-matches the discovery pattern in full and
`normalize_eg_phone` maps it to itself. -/
theorem normalize_idempotent (t : List Char) (h9 : t.length = 9) (hd : t.all isDig = true) :
    egSearch ('2' :: '0' :: '1' :: t) = some ('2' :: '0' :: '1' :: t) ∧
    normalize_eg_phone (List.asString ('2' :: '0' :: '1' :: t))
      = some (List.asString ('2' :: '0' :: '1' :: t)) := by
  have hsearch : egSearch ('2' :: '0' :: '1' :: t) = some ('2' :: '0' :: '1' :: t) := by
    rw [egSearch, egMatchAt_201 h9 hd]
  refine ⟨hsearch, ?_⟩
  rw [normalize_eg_phone]
  rw [show (List.asString ('2' :: '0' :: '1' :: t)).data = '2' :: '0' :: '1' :: t from rfl]
  rw [hsearch]
  simp only
  have hfilter : ('2' :: '0' :: '1' :: t).filter isDig = '2' :: '0' :: '1' :: t := by
    rw [List.filter_eq_self]
    intro a ha
    simp only [List.mem_cons] at ha
    rcases ha with rfl | rfl | rfl | ha
    · decide
    · decide
    · decide
    · exact List.all_eq_true.mp hd a ha
  rw [hfilter]
  have hlen : ('2' :: '0' :: '1' :: t).length = 12 := by simp [h9]
  rw [normDigits, normBranch]
  rw [if_neg (by simp), if_pos ⟨rfl, hlen⟩]
  simp only
  rw [if_pos ⟨rfl, hlen⟩]
  rfl

/-- Witness for C8 at `"201123456789"`. -/
theorem normalize_idempotent_witness :
    egSearch ('2' :: '0' :: '1' :: "123456789".data)
        = some ('2' :: '0' :: '1' :: "123456789".data) ∧
    normalize_eg_phone (List.asString ('2' :: '0' :: '1' :: "123456789".data))
      = some (List.asString ('2' :: '0' :: '1' :: "123456789".data)) :=
  normalize_idempotent "123456789".data (by decide) (by decide)

/-! ## Shape of every pattern match (for C3) -/

/-- Shape of a `1\\d{9}` match: `'1'` then 9 digits. -/
def coreShape (m : List Char) : Prop :=
  ∃ t, t.length = 9 ∧ t.all isDig = true ∧ m = '1' :: t

/-- Shape of any full-pattern match: an optional `+`, optional `20`,
optional `0`, then the 10-digit core. -/
def matchShape (m : List Char) : Prop :=
  ∃ k, coreShape k ∧
    (m = k ∨ m = '0' :: k ∨ m = '2' :: '0' :: k ∨ m = '2' :: '0' :: '0' :: k ∨
      m = '+' :: '2' :: '0' :: k ∨ m = '+' :: '2' :: '0' :: '0' :: k)

lemma egMatchCore_shape {cs m : List Char} (h : egMatchCore cs = some m) : coreShape m := by
  unfold egMatchCore at h
  split at h
  · split_ifs at h with hcond
    cases h
    exact ⟨_, hcond.1, hcond.2, rfl⟩
  · cases h

lemma egMatchOpt0_shape {cs m : List Char} (h : egMatchOpt0 cs = some m) :
    coreShape m ∨ ∃ k, coreShape k ∧ m = '0' :: k := by
  unfold egMatchOpt0 at h
  split at h
  · split at h
    · cases h
      next m0 heq => exact Or.inr ⟨m0, egMatchCore_shape heq, rfl⟩
    · exact Or.inl (egMatchCore_shape h)
  · exact Or.inl (egMatchCore_shape h)

lemma egMatchAt_shape {cs m : List Char} (h : egMatchAt cs = some m) : matchShape m := by
  unfold egMatchAt at h
  split at h
  · split at h
    · cases h
      next m0 heq =>
        rcases egMatchOpt0_shape heq with hc | ⟨k, hk, rfl⟩
        · exact ⟨m0, hc, by tauto⟩
        · exact ⟨k, hk, by tauto⟩
    · rcases egMatchOpt0_shape h with hc | ⟨k, hk, rfl⟩
      · exact ⟨m, hc, by tauto⟩
      · exact ⟨k, hk, by tauto⟩
  · split at h
    · cases h
      next m0 heq =>
        rcases egMatchOpt0_shape heq with hc | ⟨k, hk, rfl⟩
        · exact ⟨m0, hc, by tauto⟩
        · exact ⟨k, hk, by tauto⟩
    · rcases egMatchOpt0_shape h with hc | ⟨k, hk, rfl⟩
      · exact ⟨m, hc, by tauto⟩
      · exact ⟨k, hk, by tauto⟩
  · rcases egMatchOpt0_shape h with hc | ⟨k, hk, rfl⟩
    · exact ⟨m, hc, by tauto⟩
    · exact ⟨k, hk, by tauto⟩

lemma egSearch_shape {cs m : List Char} (h : egSearch cs = some m) : matchShape m := by
  induction cs with
  | nil => cases h
  | cons c rest ih =>
    rw [egSearch] at h
    split at h
    · cases h
      next heq => exact egMatchAt_shape heq
    · exact ih h

/-- The digits of any match: a `'1'`-led 10-digit core optionally preceded
by `0`, `20`, or `200` (a leading `+` is stripped as a non-digit). -/
lemma search_digits_shape {cs m : List Char} (h : egSearch cs = some m) :
    ∃ t, t.length = 9 ∧ t.all isDig = true ∧
      (m.filter isDig = '1' :: t ∨ m.filter isDig = '0' :: '1' :: t ∨
        m.filter isDig = '2' :: '0' :: '1' :: t ∨
        m.filter isDig = '2' :: '0' :: '0' :: '1' :: t) := by
  obtain ⟨k, ⟨t, h9, hd, rfl⟩, hcase⟩ := egSearch_shape h
  have hfilterCore : ('1' :: t).filter isDig = '1' :: t := by
    rw [List.filter_eq_self]
    intro a ha
    simp only [List.mem_cons] at ha
    rcases ha with rfl | ha
    · decide
    · exact List.all_eq_true.mp hd a ha
  refine ⟨t, h9, hd, ?_⟩
  rcases hcase with rfl | rfl | rfl | rfl | rfl | rfl <;>
    simp [List.filter_cons, hfilterCore, isDig]

/-- C3: when the matched substring's digits are an 11-digit string
beginning `"0"`, `normalize_eg_phone` replaces the leading `"0"` by `"20"`
and returns the resulting 12-digit `"20"`-prefixed string. -/
theorem normalize_zero_prefixed (t : String) (m : List Char)
    (hsr : egSearch t.data = some m)
    (h0 : (m.filter isDig).take 1 = ['0'])
    (hlen : (m.filter isDig).length = 11) :
    normalize_eg_phone t = some (List.asString ('2' :: '0' :: (m.filter isDig).drop 1)) := by
  obtain ⟨t9, h9, hd9, hcase⟩ := search_digits_shape hsr
  rcases hcase with hf | hf | hf | hf
  · rw [hf] at hlen
    simp [h9] at hlen
  · rw [normalize_eg_phone, hsr]
    simp only
    rw [hf]
    have hlen11 : ('0' :: '1' :: t9).length = 11 := by simp [h9]
    rw [normDigits, normBranch, if_pos ⟨rfl, hlen11⟩]
    simp only
    rw [if_pos ⟨rfl, by simp [h9]⟩]
    rfl
  · rw [hf] at hlen
    simp [h9] at hlen
  · rw [hf] at hlen
    simp [h9] at hlen

/-- Witness for C3 at the spec's example `"01012345678"`. -/
theorem normalize_zero_prefixed_witness :
    normalize_eg_phone "01012345678"
      = some (List.asString
          ('2' :: '0' :: (("01012345678".data.filter isDig).drop 1))) :=
  normalize_zero_prefixed "01012345678" "01012345678".data (by decide) (by decide) (by decide)

/-! ## Percent-encoding properties (C4) -/

lemma char_toNat_lt (c : Char) : c.toNat < 1114112 := by
  rcases c.valid with h | h
  · exact Nat.lt_trans h (by norm_num)
  · exact h.2

lemma utf8Bytes_lt (c : Char) : ∀ b ∈ utf8Bytes c, b < 256 := by
  have hv := char_toNat_lt c
  simp only [utf8Bytes]
  split_ifs with h1 h2 h3 <;>
    · intro b hb
      simp only [List.mem_cons, List.not_mem_nil, or_false] at hb
      rcases hb with rfl | rfl | rfl | rfl <;> omega

set_option maxRecDepth 8192 in
lemma hex_roundtrip :
    ∀ b, b < 256 → 16 * hexVal (hexDigit (b / 16)) + hexVal (hexDigit (b % 16)) = b := by
  decide

set_option maxRecDepth 8192 in
lemma unres_ne_pct : ∀ b, b < 256 → isUnreservedByte b = true → Char.ofNat b ≠ '%' := by
  decide

set_option maxRecDepth 8192 in
lemma unres_utf8 : ∀ b, b < 256 → isUnreservedByte b = true → utf8Bytes (Char.ofNat b) = [b] := by
  decide

set_option maxRecDepth 8192 in
lemma unres_toNat :
    ∀ b, b < 256 → isUnreservedByte b = true → isUnreservedByte ((Char.ofNat b).toNat) = true := by
  decide

lemma hexDigit_unres :
    ∀ n, n < 16 → isUnreservedByte ((hexDigit n).toNat) = true ∧ hexDigit n ≠ '%' := by
  decide

/-- Space, newline, and the URI-reserved characters of RFC 3986
(gen-delims and sub-delims; `Char.ofNat 39` is the single quote). -/
def uriReservedOrBlank : List Char :=
  [' ', Char.ofNat 10, ':', '/', '?', '#', '[', ']', '@', '!', '$', '&', Char.ofNat 39,
    '(', ')', '*', '+', ',', ';', '=']

lemma mem_encodeByte {b : Nat} {c : Char} (hb : b < 256) (hc : c ∈ encodeByte b) :
    c = '%' ∨ isUnreservedByte c.toNat = true := by
  rw [encodeByte] at hc
  split_ifs at hc with hu
  · simp only [List.mem_cons, List.not_mem_nil, or_false] at hc
    subst hc
    exact Or.inr (unres_toNat b hb hu)
  · simp only [List.mem_cons, List.not_mem_nil, or_false] at hc
    rcases hc with rfl | rfl | rfl
    · exact Or.inl rfl
    · exact Or.inr (hexDigit_unres (b / 16) (by omega)).1
    · exact Or.inr (hexDigit_unres (b % 16) (by omega)).1

/-- C4 (amended): every character of the encoder's output is `%` or an
unreserved byte (ASCII letter, digit, `-`, `.`, `_`, `~`); consequently
space, newline, and every URI-reserved character of the message are always
escaped and never appear literally in the `?text=` value. -/
theorem encode_escapes_all_but_unreserved :
    (∀ (s : String), ∀ c ∈ (encode_for_whatsapp s).data,
      c = '%' ∨ isUnreservedByte c.toNat = true) ∧
    (∀ (s : String), ∀ c ∈ uriReservedOrBlank, c ∉ (encode_for_whatsapp s).data) := by
  have h1 : ∀ (s : String), ∀ c ∈ (encode_for_whatsapp s).data,
      c = '%' ∨ isUnreservedByte c.toNat = true := by
    intro s c hc
    have hc' : c ∈ (s.data.flatMap utf8Bytes).flatMap encodeByte := hc
    obtain ⟨b, hb, hcb⟩ := List.mem_flatMap.mp hc'
    obtain ⟨ch, hch, hbch⟩ := List.mem_flatMap.mp hb
    exact mem_encodeByte (utf8Bytes_lt ch b hbch) hcb
  refine ⟨h1, ?_⟩
  intro s c hres hmem
  have hno : ∀ c ∈ uriReservedOrBlank, ¬(c = '%' ∨ isUnreservedByte c.toNat = true) := by
    decide
  exact hno c hres (h1 s c hmem)

/-- Counterexample to C4 as stated: escaping every single character would
produce three output characters (`%XX`) per UTF-8 byte, but the encoder
leaves the unreserved character `z` unescaped. -/
theorem encode_escapes_every_char_cex :
    ¬ (∀ s : String,
        (encode_for_whatsapp s).data.length = 3 * (s.data.flatMap utf8Bytes).length) := by
  intro h
  exact absurd (h "z") (by decide)

/-- Witness for the amended C4: the space of `"a b"` never appears in the
encoded output. -/
theorem encode_escapes_witness : ' ' ∉ (encode_for_whatsapp "a b").data :=
  encode_escapes_all_but_unreserved.2 "a b" ' ' (by decide)

/-! ## Round trip of the encoding (C5) -/

lemma percentDecodeBytes_not_pct {c : Char} (rest : List Char) (hc : c ≠ '%') :
    percentDecodeBytes (c :: rest) = utf8Bytes c ++ percentDecodeBytes rest :=
  percentDecodeBytes.eq_3 c rest (fun _ _ _ hcc _ => hc hcc)

lemma percentDecodeBytes_pct (h1 h2 : Char) (rest : List Char) :
    percentDecodeBytes ('%' :: h1 :: h2 :: rest)
      = (16 * hexVal h1 + hexVal h2) :: percentDecodeBytes rest :=
  percentDecodeBytes.eq_2 h1 h2 rest

lemma utf8Decode_append (c : Char) (bs : List Nat) :
    utf8Decode (utf8Bytes c ++ bs) = (utf8Decode bs).map (fun l => c :: l) := by
  have hv := char_toNat_lt c
  by_cases h1 : c.toNat < 128
  · have hb : utf8Bytes c = [c.toNat] := by simp [utf8Bytes, h1]
    rw [hb, List.cons_append, List.nil_append, utf8Decode.eq_def]
    dsimp only
    rw [if_pos h1]
    simp only [Char.ofNat_toNat]
  · by_cases h2 : c.toNat < 2048
    · have hb : utf8Bytes c = [192 + c.toNat / 64, 128 + c.toNat % 64] := by
        simp [utf8Bytes, h1, h2]
      rw [hb, List.cons_append, List.cons_append, List.nil_append, utf8Decode.eq_def]
      dsimp only
      rw [if_neg (by omega), if_neg (by omega), if_pos (by omega),
        if_pos (by refine ⟨by simp, ?_⟩; simp [contOk]; omega)]
      simp only [List.take_succ_cons, List.take_zero, List.drop_succ_cons, List.drop_zero,
        List.foldl_cons, List.foldl_nil]
      have hval : (192 + c.toNat / 64 - 192) * 64 + (128 + c.toNat % 64 - 128) = c.toNat := by
        omega
      simp only [hval, Char.ofNat_toNat]
    · by_cases h3 : c.toNat < 65536
      · have hb : utf8Bytes c
            = [224 + c.toNat / 4096, 128 + (c.toNat / 64) % 64, 128 + c.toNat % 64] := by
          simp [utf8Bytes, h1, h2, h3]
        rw [hb, List.cons_append, List.cons_append, List.cons_append, List.nil_append,
          utf8Decode.eq_def]
        dsimp only
        rw [if_neg (by omega), if_neg (by omega), if_neg (by omega), if_pos (by omega),
          if_pos (by refine ⟨by simp, ?_⟩; simp [contOk]; omega)]
        simp only [List.take_succ_cons, List.take_zero, List.drop_succ_cons, List.drop_zero,
          List.foldl_cons, List.foldl_nil]
        have hval : ((224 + c.toNat / 4096 - 224) * 64 + (128 + (c.toNat / 64) % 64 - 128)) * 64
            + (128 + c.toNat % 64 - 128) = c.toNat := by omega
        simp only [hval, Char.ofNat_toNat]
      · have hb : utf8Bytes c
            = [240 + c.toNat / 262144, 128 + (c.toNat / 4096) % 64, 128 + (c.toNat / 64) % 64,
                128 + c.toNat % 64] := by
          simp [utf8Bytes, h1, h2, h3]
        rw [hb, List.cons_append, List.cons_append, List.cons_append, List.cons_append,
          List.nil_append, utf8Decode.eq_def]
        dsimp only
        rw [if_neg (by omega), if_neg (by omega), if_neg (by omega), if_neg (by omega),
          if_pos (by omega), if_pos (by refine ⟨by simp, ?_⟩; simp [contOk]; omega)]
        simp only [List.take_succ_cons, List.take_zero, List.drop_succ_cons, List.drop_zero,
          List.foldl_cons, List.foldl_nil]
        have hval : (((240 + c.toNat / 262144 - 240) * 64 + (128 + (c.toNat / 4096) % 64 - 128))
              * 64 + (128 + (c.toNat / 64) % 64 - 128)) * 64 + (128 + c.toNat % 64 - 128)
            = c.toNat := by omega
        simp only [hval, Char.ofNat_toNat]

lemma utf8Decode_flatMap (cs : List Char) : utf8Decode (cs.flatMap utf8Bytes) = some cs := by
  induction cs with
  | nil => rw [List.flatMap_nil, utf8Decode.eq_def]
  | cons c rest ih => rw [List.flatMap_cons, utf8Decode_append, ih]; rfl

lemma percentDecodeBytes_encode (bs : List Nat) (h : ∀ b ∈ bs, b < 256) :
    percentDecodeBytes (bs.flatMap encodeByte) = bs := by
  induction bs with
  | nil => rfl
  | cons b rest ih =>
    have hb : b < 256 := h b (List.mem_cons_self b rest)
    have hrest : ∀ x ∈ rest, x < 256 := fun x hx => h x (List.mem_cons_of_mem b hx)
    rw [List.flatMap_cons]
    by_cases hu : isUnreservedByte b = true
    · rw [show encodeByte b = [Char.ofNat b] from by rw [encodeByte, if_pos hu]]
      rw [List.cons_append, List.nil_append]
      rw [percentDecodeBytes_not_pct _ (unres_ne_pct b hb hu)]
      rw [unres_utf8 b hb hu, ih hrest]
      rfl
    · rw [show encodeByte b = ['%', hexDigit (b / 16), hexDigit (b % 16)] from by
        rw [encodeByte, if_neg hu]]
      rw [List.cons_append, List.cons_append, List.cons_append, List.nil_append]
      rw [percentDecodeBytes_pct, hex_roundtrip b hb, ih hrest]

/-- C5: for any message with non-blank content, the generated link carries
the encoded message in its `?text=` value, and percent-decoding that value
(bytes, then UTF-8) reproduces the exact original message — newlines
included. -/
theorem link_roundtrip (phone msg : String) (h : pyStrip msg ≠ "") :
    build_wa_link phone msg
      = "https://wa.me/" ++ phone ++ "?text=" ++ encode_for_whatsapp msg ∧
    percentDecode (encode_for_whatsapp msg) = some msg := by
  refine ⟨build_wa_link_text phone msg h, ?_⟩
  rw [percentDecode]
  rw [show (encode_for_whatsapp msg).data
      = (msg.data.flatMap utf8Bytes).flatMap encodeByte from rfl]
  rw [percentDecodeBytes_encode _ (fun b hb => by
    obtain ⟨ch, hch, hbch⟩ := List.mem_flatMap.mp hb
    exact utf8Bytes_lt ch b hbch)]
  rw [utf8Decode_flatMap]
  rfl

/-- Witness for C5 with an embedded newline. -/
theorem link_roundtrip_witness :
    build_wa_link "201012345678" "a\nb"
      = "https://wa.me/" ++ "201012345678" ++ "?text=" ++ encode_for_whatsapp "a\nb" ∧
    percentDecode (encode_for_whatsapp "a\nb") = some "a\nb" :=
  link_roundtrip "201012345678" "a\nb" (by decide)

end Wa
